import Mathlib

/-!
Shallow embedding of `trainingpoints.py` from the OXEMU repository.

The script scales Latin Hypercube Samples into cosmological parameter values via
per-parameter prior quantile functions (`scale_lhs`, built on `generate_prior`),
then computes a linear matter power spectrum for each scaled cosmology
(`pk_linear`).

Modelling conventions:
- Python floats are modelled as rationals (`ℚ`).
- Python exceptions are modelled with `Except Err`.
- Side effects (the file writers `hp.save_csv` / `hp.save_list` and each call of
  the external power-spectrum engine) are recorded in an event list.
- External collaborators that are not part of the file under verification
  (`scipy.stats`, `oxemu.config`, `oxemu.utils.helpers`,
  `oxemu.src.cosmology.PowerSpectrum`, the file system) are modelled from the
  spec as parameters of the embedded functions.
-/

namespace OXEMU

/-- Errors raised by the Python runtime or libraries, as distinguished by the
embedding. -/
inductive Err where
  | attributeError
  | typeError
  | ioError
  | keyError
  | indexError
  | engineError
deriving DecidableEq

/-- Modelled from the spec: a frozen `scipy.stats` distribution object, reduced
to the one method the script uses: its quantile function `ppf` (inverse CDF). -/
structure Dist where
  ppf : ℚ → ℚ

/-- Modelled from the spec: the `scipy.stats` module, as a mapping from
recognized distribution family names to constructors. `none` models a missing
attribute (an `AttributeError` from `getattr`); a constructor returns `none`
when the supplied numeric parameters mismatch the family's requirements
(a `TypeError`). -/
abbrev SciPy := String → Option (List ℚ → Option Dist)

/-- A prior specification dictionary: a distribution family name under the key
`distribution` and its numeric parameters under the key `specs`. -/
structure PriorSpec where
  distribution : String
  specs : List ℚ

/-- Modelled from the spec: the configuration module `oxemu.config` (not under
`src/`), supplying the ordered list of cosmological parameter names
(`CONFIG.COSMO`) and one prior specification per parameter (`CONFIG.PRIORS`). -/
structure Config where
  cosmo : List String
  priors : String → PriorSpec

/-- A scaled cosmology: a mapping from parameter name to value, modelled as an
insertion-ordered association list (a Python dict). -/
abbrev Cosmo := List (String × ℚ)

/-- A power-spectrum result: a mapping from wavenumber to power value
(spec, Data Model). -/
abbrev Pk := List (ℚ × ℚ)

/-- Modelled from the spec: the file system visible to `pd.read_csv`, mapping a
path to the parsed unit-sample matrix (with the index column, `index_col=[0]`,
already dropped); `none` models a missing or unreadable file. -/
abbrev FS := String → Option (List (List ℚ))

/-- Modelled from the spec: the external power-spectrum engine
(`PowerSpectrum(...).pk_linear`), an opaque fallible function from a scaled
cosmology and a redshift to a power-spectrum result. -/
abbrev Engine := Cosmo → ℚ → Except Err Pk

/-- Observable side effects: the helper writers `hp.save_csv` and `hp.save_list`
from `oxemu.utils.helpers` (modelled from the spec, split by payload type), each
recorded with its target directory and file name, plus each invocation of the
external engine. -/
inductive Event where
  | saveCsv (dir file : String) (rows : List Cosmo)
  | saveList (dir file : String) (data : List Cosmo)
  | savePkCsv (dir file : String) (rows : List Pk)
  | savePkList (dir file : String) (data : List Pk)
  | engineCall (cosmo : Cosmo) (redshift : ℚ)
deriving DecidableEq

/-- The function `generate_prior` (trainingpoints.py, lines 22-33):
`getattr(scipy.stats, dictionary['distribution'])(*dictionary['specs'])`. -/
def generate_prior (stats : SciPy) (dictionary : PriorSpec) : Except Err Dist :=
  match stats dictionary.distribution with
  | none => .error .attributeError
  | some ctor =>
    match ctor dictionary.specs with
    | none => .error .typeError
    | some dist => .ok dist

/-- Whether the first list is an initial segment of the second (used below to
express Python's substring operator `in`). -/
def leadsWith : List Char → List Char → Bool
  | [], _ => true
  | _ :: _, [] => false
  | a :: as, b :: bs => a == b && leadsWith as bs

/-- Substring occurrence: Python's `needle in hay` for strings. -/
def occursIn (needle : List Char) : List Char → Bool
  | [] => needle.isEmpty
  | c :: rest => leadsWith needle (c :: rest) || occursIn needle rest

/-- Input-path resolution of `scale_lhs` (lines 48-51): if `'.csv' in fname`
(a substring test) the path is `os.path.join('data', fname)`, otherwise
`os.path.join('data', fname + '.csv')` (POSIX join). -/
def resolvePath (fname : String) : String :=
  if occursIn ".csv".toList fname.toList then "data/" ++ fname
  else "data/" ++ fname ++ ".csv"

/-- The prior-construction loop of `scale_lhs` (lines 62-65): build the `priors`
dict by calling `generate_prior(CONFIG.PRIORS[param])` for each `param` in
`CONFIG.COSMO`, in order; an exception propagates immediately. -/
def buildPriors (stats : SciPy) (pf : String → PriorSpec) :
    List String → Except Err (List (String × Dist))
  | [] => .ok []
  | p :: rest =>
    match generate_prior stats (pf p) with
    | .error e => .error e
    | .ok d =>
      match buildPriors stats pf rest with
      | .error e => .error e
      | .ok ps => .ok ((p, d) :: ps)

/-- Helper for the dict comprehension of line 72, threading the running column
index `k`: for each remaining name, look up its prior in the `priors` dict
(`KeyError` if absent) and the `k`-th entry of the row (`IndexError` if out of
range), and emit `(name, prior.ppf value)`. -/
def scaleRowAux (priors : List (String × Dist)) (row : List ℚ) :
    Nat → List String → Except Err Cosmo
  | _, [] => .ok []
  | k, p :: rest =>
    match List.lookup p priors with
    | none => .error .keyError
    | some d =>
      match row.get? k with
      | none => .error .indexError
      | some u =>
        match scaleRowAux priors row (k + 1) rest with
        | .error e => .error e
        | .ok tail => .ok ((p, d.ppf u) :: tail)

/-- The dict comprehension of `scale_lhs` (line 72):
`{CONFIG.COSMO[k]: priors[CONFIG.COSMO[k]].ppf(cosmo[k]) for k in range(len(CONFIG.COSMO))}`. -/
def scaleRow (names : List String) (priors : List (String × Dist)) (row : List ℚ) :
    Except Err Cosmo :=
  scaleRowAux priors row 0 names

/-- A sequential Python `for`-append loop over a list: evaluate `f` on each
element in order, the first exception propagating. -/
def mapE (f : α → Except Err β) : List α → Except Err (List β)
  | [] => .ok []
  | a :: as =>
    match f a with
    | .error e => .error e
    | .ok b =>
      match mapE f as with
      | .error e => .error e
      | .ok bs => .ok (b :: bs)

/-- The function `scale_lhs` (lines 36-82): resolve the input path, read the LHS matrix,
build the priors, scale each of the `ncosmo = lhs.shape[0]` rows in order, and,
when `save` is set, persist the scaled cosmologies as a CSV and as a serialized
list under `data/cosmologies`. Returns the scaled-cosmology list together with
the emitted side effects. -/
def scale_lhs (fs : FS) (stats : SciPy) (cfg : Config) (fname : String)
    (save : Bool) : Except Err (List Cosmo × List Event) :=
  match fs (resolvePath fname) with
  | none => .error .ioError
  | some lhs =>
    match buildPriors stats cfg.priors cfg.cosmo with
    | .error e => .error e
    | .ok priors =>
      match mapE (scaleRow cfg.cosmo priors) lhs with
      | .error e => .error e
      | .ok cosmo_list =>
        .ok (cosmo_list,
          if save then
            [.saveCsv "data" "cosmologies" cosmo_list,
             .saveList "data" "cosmologies" cosmo_list]
          else [])

/-- The engine loop of `pk_linear` (lines 103-107): call
`module.pk_linear(cosmo, redshift)` for each cosmology in order, recording each
invocation; an engine exception propagates at once, ending the loop. -/
def runEngine (engine : Engine) (redshift : ℚ) :
    List Cosmo → Except Err (List Pk) × List Event
  | [] => (.ok [], [])
  | c :: rest =>
    match engine c redshift with
    | .error e => (.error e, [.engineCall c redshift])
    | .ok pk =>
      match runEngine engine redshift rest with
      | (.error e, evs) => (.error e, .engineCall c redshift :: evs)
      | (.ok pks, evs) => (.ok (pk :: pks), .engineCall c redshift :: evs)

/-- The function `pk_linear` (lines 85-114): scale the LHS points with `save=True`, run the
engine once per cosmology in order, then persist the results as a CSV and as a
serialized list under `data/pk_linear`. Returns the pair of lists the Python
function returns, alongside all emitted side effects (the events of an aborted
run are those that happened before the exception). -/
def pk_linear (fs : FS) (stats : SciPy) (cfg : Config) (engine : Engine)
    (fname : String) (redshift : ℚ) :
    Except Err (List Cosmo × List Pk) × List Event :=
  match scale_lhs fs stats cfg fname true with
  | .error e => (.error e, [])
  | .ok (cosmologies, ev1) =>
    match runEngine engine redshift cosmologies with
    | (.error e, ev2) => (.error e, ev1 ++ ev2)
    | (.ok pk_lin, ev2) =>
      (.ok (cosmologies, pk_lin),
        ev1 ++ ev2 ++ [.savePkCsv "data" "pk_linear" pk_lin,
                       .savePkList "data" "pk_linear" pk_lin])

/-- Whether an event is a persistence of power-spectrum results. -/
def isPkSave : Event → Bool
  | .savePkCsv _ _ _ => true
  | .savePkList _ _ _ => true
  | _ => false

/-- Extract an engine invocation from an event. -/
def engineCallOf : Event → Option (Cosmo × ℚ)
  | .engineCall c z => some (c, z)
  | _ => none

/-- Modelled from the spec: `q` is the quantile function (inverse CDF) of the
cumulative distribution function `cdf` — the Galois-connection characterization
`q u ≤ x ↔ u ≤ cdf x` of the generalized inverse. -/
def IsQuantileOf (cdf q : ℚ → ℚ) : Prop :=
  ∀ u x : ℚ, q u ≤ x ↔ u ≤ cdf x

/-- The standard uniform distribution on `[0, 1]`
(`scipy.stats.uniform(0, 1)`): its quantile function is the identity. -/
def stdUnif : Dist := ⟨fun u => u⟩

/-- A demo constructor for the `uniform` family: it requires exactly two
numeric parameters and freezes the standard uniform on `[0, 1]`. -/
def uniformCtor : List ℚ → Option Dist
  | [_, _] => some stdUnif
  | _ => none

/-- A concrete stats-module model recognizing only the `uniform` family. -/
def statsDemo : SciPy := fun n =>
  if n = "uniform" then some uniformCtor else none

/-- A concrete configuration: two parameters, each with a uniform prior on
`[0, 1]` (the spec's worked example). -/
def cfgDemo : Config := ⟨["param1", "param2"], fun _ => ⟨"uniform", [0, 1]⟩⟩

/-- A concrete file system holding a single-row LHS file `data/lhs.csv` with
the unit sample `[0.5, 0.5]`. -/
def fsDemo : FS := fun p => if p = "data/lhs.csv" then some [[1/2, 1/2]] else none

/-- A concrete engine that always succeeds with a fixed spectrum. -/
def engineDemo : Engine := fun _ _ => .ok [(1, 1)]

/-- A concrete file system holding an LHS file `data/lhs.csv` with zero rows. -/
def fsEmptyDemo : FS := fun p => if p = "data/lhs.csv" then some [] else none

/-! ### Helper lemmas -/

lemma mapE_ok_length {α β : Type} {f : α → Except Err β} :
    ∀ {l : List α} {out : List β}, mapE f l = .ok out → out.length = l.length := by
  intro l
  induction l with
  | nil =>
    intro out h
    simp only [mapE, Except.ok.injEq] at h
    simp [← h]
  | cons a as ih =>
    intro out h
    simp only [mapE] at h
    cases hfa : f a with
    | error e => rw [hfa] at h; exact absurd h (by simp)
    | ok b =>
      rw [hfa] at h
      cases hm : mapE f as with
      | error e => rw [hm] at h; exact absurd h (by simp)
      | ok bs =>
        rw [hm] at h
        simp only [Except.ok.injEq] at h
        subst h
        simp [ih hm]

lemma mapE_ok_get {α β : Type} {f : α → Except Err β} :
    ∀ {l : List α} {out : List β}, mapE f l = .ok out →
      ∀ i (hi : i < l.length),
        ∃ b, out.get? i = some b ∧ f (l.get ⟨i, hi⟩) = .ok b := by
  intro l
  induction l with
  | nil => intro out _ i hi; exact absurd hi (by simp)
  | cons a as ih =>
    intro out h i hi
    simp only [mapE] at h
    cases hfa : f a with
    | error e => rw [hfa] at h; exact absurd h (by simp)
    | ok b =>
      rw [hfa] at h
      cases hm : mapE f as with
      | error e => rw [hm] at h; exact absurd h (by simp)
      | ok bs =>
        rw [hm] at h
        simp only [Except.ok.injEq] at h
        subst h
        cases i with
        | zero => exact ⟨b, rfl, hfa⟩
        | succ j =>
          obtain ⟨b', hb', hf'⟩ := ih hm j (Nat.lt_of_succ_lt_succ hi)
          exact ⟨b', hb', hf'⟩

lemma buildPriors_lookup {stats : SciPy} {pf : String → PriorSpec} :
    ∀ {names : List String} {ps}, buildPriors stats pf names = .ok ps →
      ∀ name ∈ names, ∃ d, List.lookup name ps = some d ∧
        generate_prior stats (pf name) = .ok d := by
  intro names
  induction names with
  | nil => intro ps _ name hmem; exact absurd hmem (by simp)
  | cons p rest ih =>
    intro ps h name hmem
    simp only [buildPriors] at h
    cases hg : generate_prior stats (pf p) with
    | error e => rw [hg] at h; exact absurd h (by simp)
    | ok d =>
      rw [hg] at h
      cases hb : buildPriors stats pf rest with
      | error e => rw [hb] at h; exact absurd h (by simp)
      | ok ps' =>
        rw [hb] at h
        simp only [Except.ok.injEq] at h
        subst h
        by_cases heq : name = p
        · subst heq
          exact ⟨d, by simp [List.lookup], hg⟩
        · have hne : (name == p) = false := beq_false_of_ne heq
          rcases List.mem_cons.mp hmem with hc | hrest
          · exact absurd hc heq
          · obtain ⟨d', hd', hg'⟩ := ih hb name hrest
            exact ⟨d', by simp [List.lookup, hne, hd'], hg'⟩

lemma scaleRowAux_ok_get {priors : List (String × Dist)} {row : List ℚ} :
    ∀ {names : List String} {k0 : Nat} {out : Cosmo},
      scaleRowAux priors row k0 names = .ok out →
      ∀ j (hj : j < names.length),
        ∃ d u, List.lookup (names.get ⟨j, hj⟩) priors = some d ∧
          row.get? (k0 + j) = some u ∧
          out.get? j = some (names.get ⟨j, hj⟩, d.ppf u) := by
  intro names
  induction names with
  | nil => intro k0 out _ j hj; exact absurd hj (by simp)
  | cons p rest ih =>
    intro k0 out h j hj
    simp only [scaleRowAux] at h
    cases hl : List.lookup p priors with
    | none => rw [hl] at h; exact absurd h (by simp)
    | some d =>
      rw [hl] at h
      cases hr : row.get? k0 with
      | none => rw [hr] at h; exact absurd h (by simp)
      | some u =>
        rw [hr] at h
        cases ht : scaleRowAux priors row (k0 + 1) rest with
        | error e => rw [ht] at h; exact absurd h (by simp)
        | ok tail =>
          rw [ht] at h
          simp only [Except.ok.injEq] at h
          subst h
          cases j with
          | zero => exact ⟨d, u, hl, by simpa using hr, rfl⟩
          | succ j' =>
            obtain ⟨d', u', hl', hr', ho'⟩ := ih ht j' (Nat.lt_of_succ_lt_succ hj)
            refine ⟨d', u', hl', ?_, ho'⟩
            have : k0 + (j' + 1) = k0 + 1 + j' := by omega
            rw [this]
            exact hr'

lemma runEngine_ok {engine : Engine} {z : ℚ} :
    ∀ {l : List Cosmo} {pks evs}, runEngine engine z l = (.ok pks, evs) →
      pks.length = l.length ∧
      evs = l.map (fun c => Event.engineCall c z) ∧
      ∀ i (hi : i < l.length), ∃ p, pks.get? i = some p ∧
        engine (l.get ⟨i, hi⟩) z = .ok p := by
  intro l
  induction l with
  | nil =>
    intro pks evs h
    simp only [runEngine, Prod.mk.injEq, Except.ok.injEq] at h
    obtain ⟨h1, h2⟩ := h
    subst h1; subst h2
    exact ⟨rfl, rfl, fun i hi => absurd hi (by simp)⟩
  | cons c rest ih =>
    intro pks evs h
    simp only [runEngine] at h
    cases he : engine c z with
    | error e => rw [he] at h; exact absurd h (by simp)
    | ok pk =>
      rw [he] at h
      cases hrec : runEngine engine z rest with
      | mk res evs' =>
        rw [hrec] at h
        cases res with
        | error e => exact absurd h (by simp)
        | ok pks' =>
          simp only [Prod.mk.injEq, Except.ok.injEq] at h
          obtain ⟨h1, h2⟩ := h
          subst h1; subst h2
          obtain ⟨hlen, hevs, hget⟩ := ih hrec
          refine ⟨by simp [hlen], by simp [hevs], ?_⟩
          intro i hi
          cases i with
          | zero => exact ⟨pk, rfl, he⟩
          | succ j =>
            obtain ⟨p, hp, hep⟩ := hget j (Nat.lt_of_succ_lt_succ hi)
            exact ⟨p, hp, hep⟩

lemma runEngine_err {engine : Engine} {z : ℚ} :
    ∀ {l : List Cosmo} {i : Nat} {e : Err} (hi : i < l.length),
      (∀ j (hj : j < i), ∃ p, engine (l.get ⟨j, Nat.lt_trans hj hi⟩) z = .ok p) →
      engine (l.get ⟨i, hi⟩) z = .error e →
      runEngine engine z l =
        (.error e, (l.take (i + 1)).map (fun c => Event.engineCall c z)) := by
  intro l
  induction l with
  | nil => intro i e hi; exact absurd hi (by simp)
  | cons c rest ih =>
    intro i e hi hok hfail
    cases i with
    | zero =>
      simp only [runEngine]
      rw [show engine c z = .error e from hfail]
      simp
    | succ i' =>
      obtain ⟨p, hp⟩ := hok 0 (Nat.succ_pos i')
      simp only [runEngine]
      rw [show engine c z = .ok p from hp]
      have hi' : i' < rest.length := Nat.lt_of_succ_lt_succ hi
      have hrec := ih hi'
        (fun j hj => hok (j + 1) (Nat.succ_lt_succ hj))
        hfail
      rw [hrec]
      simp

lemma scale_lhs_ok_elim {fs : FS} {stats : SciPy} {cfg : Config} {fname : String}
    {save : Bool} {out : List Cosmo} {evs : List Event}
    (h : scale_lhs fs stats cfg fname save = .ok (out, evs)) :
    ∃ m priors, fs (resolvePath fname) = some m ∧
      buildPriors stats cfg.priors cfg.cosmo = .ok priors ∧
      mapE (scaleRow cfg.cosmo priors) m = .ok out ∧
      evs = if save then
          [Event.saveCsv "data" "cosmologies" out,
           Event.saveList "data" "cosmologies" out]
        else [] := by
  unfold scale_lhs at h
  split at h
  next => exact absurd h (by simp)
  next m hfs =>
    split at h
    next e hbp => exact absurd h (by simp)
    next priors hbp =>
      split at h
      next e hme => exact absurd h (by simp)
      next cl hme =>
        simp only [Except.ok.injEq, Prod.mk.injEq] at h
        obtain ⟨h1, h2⟩ := h
        subst h1
        exact ⟨m, priors, hfs, hbp, hme, h2.symm⟩

lemma scale_lhs_ok_events {fs : FS} {stats : SciPy} {cfg : Config} {fname : String}
    {save : Bool} {out : List Cosmo} {evs : List Event}
    (h : scale_lhs fs stats cfg fname save = .ok (out, evs)) :
    evs = if save then
        [Event.saveCsv "data" "cosmologies" out,
         Event.saveList "data" "cosmologies" out]
      else [] := by
  obtain ⟨-, -, -, -, -, hev⟩ := scale_lhs_ok_elim h
  exact hev

lemma pk_linear_ok_elim {fs : FS} {stats : SciPy} {cfg : Config} {engine : Engine}
    {fname : String} {z : ℚ} {cos : List Cosmo} {pk : List Pk} {ev : List Event}
    (h : pk_linear fs stats cfg engine fname z = (.ok (cos, pk), ev)) :
    ∃ ev1 ev2, scale_lhs fs stats cfg fname true = .ok (cos, ev1) ∧
      runEngine engine z cos = (.ok pk, ev2) ∧
      ev = ev1 ++ ev2 ++ [Event.savePkCsv "data" "pk_linear" pk,
                          Event.savePkList "data" "pk_linear" pk] := by
  unfold pk_linear at h
  split at h
  next e hs => exact absurd h (by simp)
  next cos' ev1 hs =>
    split at h
    next e ev2 hre => exact absurd h (by simp)
    next pks ev2 hre =>
      simp only [Prod.mk.injEq, Except.ok.injEq] at h
      obtain ⟨⟨h1, h2⟩, h3⟩ := h
      subst h1
      subst h2
      subst h3
      exact ⟨ev1, ev2, hs, hre, rfl⟩

/-! ### Claim theorems -/

/-- Claim C1: for every input unit-sample matrix, every row index `i` and every
parameter index `k`, the `i`-th scaled cosmology returned by `scale_lhs` has as
its `k`-th entry the `k`-th configured parameter name (in configured order)
paired with the value of that parameter's prior quantile function (`ppf`)
applied to the row's `k`-th unit value. -/
theorem scale_lhs_applies_ppf
    {fs : FS} {stats : SciPy} {cfg : Config} {fname : String} {save : Bool}
    {m : List (List ℚ)} {out : List Cosmo} {evs : List Event}
    (hm : fs (resolvePath fname) = some m)
    (h : scale_lhs fs stats cfg fname save = .ok (out, evs))
    (i k : Nat) (hi : i < m.length) (hk : k < cfg.cosmo.length) :
    ∃ c u d,
      out.get? i = some c ∧
      (m.get ⟨i, hi⟩).get? k = some u ∧
      generate_prior stats (cfg.priors (cfg.cosmo.get ⟨k, hk⟩)) = .ok d ∧
      c.get? k = some (cfg.cosmo.get ⟨k, hk⟩, d.ppf u) := by
  obtain ⟨m', priors, hfs', hbp, hme, -⟩ := scale_lhs_ok_elim h
  rw [hm] at hfs'
  injection hfs' with hmm
  subst hmm
  obtain ⟨c, hc, hsc⟩ := mapE_ok_get hme i hi
  unfold scaleRow at hsc
  obtain ⟨d, u, hlook, hrow, hck⟩ := scaleRowAux_ok_get hsc k hk
  obtain ⟨d', hlook', hgen⟩ :=
    buildPriors_lookup hbp (cfg.cosmo.get ⟨k, hk⟩) (cfg.cosmo.get_mem k hk)
  rw [hlook] at hlook'
  injection hlook' with hdd
  subst hdd
  refine ⟨c, u, d, hc, ?_, hgen, hck⟩
  simpa using hrow

/-- Claim C1 witness: on the spec's worked example (one row `[0.5, 0.5]`, two
parameters with uniform `[0, 1]` priors) the scaled cosmology is
`{param1: 0.5, param2: 0.5}`. -/
theorem scale_lhs_applies_ppf_witness :
    ∃ c u d,
      ([[("param1", (1 : ℚ)/2), ("param2", (1 : ℚ)/2)]] : List Cosmo).get? 0 = some c ∧
      (([[(1 : ℚ)/2, (1 : ℚ)/2]] : List (List ℚ)).get ⟨0, Nat.one_pos⟩).get? 0 = some u ∧
      generate_prior statsDemo (cfgDemo.priors (cfgDemo.cosmo.get ⟨0, by decide⟩)) = .ok d ∧
      c.get? 0 = some (cfgDemo.cosmo.get ⟨0, by decide⟩, d.ppf u) :=
  @scale_lhs_applies_ppf fsDemo statsDemo cfgDemo "lhs" false
    [[(1 : ℚ)/2, (1 : ℚ)/2]] [[("param1", (1 : ℚ)/2), ("param2", (1 : ℚ)/2)]] []
    rfl rfl 0 0 Nat.one_pos (by decide)

/-- Claim C2: the number of scaled cosmologies returned by `scale_lhs` equals
the number of input sample rows, and for `pk_linear` the number of
power-spectrum results equals the number of scaled cosmologies, which equals
the number of input rows. -/
theorem row_counts_preserved
    {fs : FS} {stats : SciPy} {cfg : Config} {engine : Engine} {fname : String}
    {z : ℚ} {m : List (List ℚ)}
    (hm : fs (resolvePath fname) = some m) :
    (∀ save out evs, scale_lhs fs stats cfg fname save = .ok (out, evs) →
      out.length = m.length) ∧
    (∀ cos pk ev, pk_linear fs stats cfg engine fname z = (.ok (cos, pk), ev) →
      cos.length = m.length ∧ pk.length = cos.length) := by
  have hscale : ∀ (save : Bool) (out : List Cosmo) (evs : List Event),
      scale_lhs fs stats cfg fname save = .ok (out, evs) → out.length = m.length := by
    intro save out evs h
    obtain ⟨m', priors, hfs', hbp, hme, -⟩ := scale_lhs_ok_elim h
    rw [hm] at hfs'
    injection hfs' with hmm
    subst hmm
    exact mapE_ok_length hme
  refine ⟨hscale, ?_⟩
  intro cos pk ev h
  obtain ⟨ev1, ev2, hs, hre, -⟩ := pk_linear_ok_elim h
  obtain ⟨hlen, -, -⟩ := runEngine_ok hre
  exact ⟨hscale true cos ev1 hs, hlen⟩

/-- Claim C2 witness: on the demo input with one row, both lists have one
element. -/
theorem row_counts_preserved_witness :
    ([[("param1", (1 : ℚ)/2), ("param2", (1 : ℚ)/2)]] : List Cosmo).length =
      ([[(1 : ℚ)/2, (1 : ℚ)/2]] : List (List ℚ)).length :=
  (@row_counts_preserved fsDemo statsDemo cfgDemo engineDemo "lhs" 0
    [[(1 : ℚ)/2, (1 : ℚ)/2]] rfl).1 false
    [[("param1", (1 : ℚ)/2), ("param2", (1 : ℚ)/2)]] [] rfl

/-- Claim C3: the `i`-th scaled cosmology produced by `scale_lhs` is obtained by
applying the fixed per-row scaling function to the `i`-th input row alone, and
the `i`-th power-spectrum result of `pk_linear` is the engine's output on the
`i`-th scaled cosmology alone, in input order. -/
theorem rowwise_independent
    {fs : FS} {stats : SciPy} {cfg : Config} {engine : Engine} {fname : String}
    {z : ℚ} {m : List (List ℚ)} {priors : List (String × Dist)}
    (hm : fs (resolvePath fname) = some m)
    (hp : buildPriors stats cfg.priors cfg.cosmo = .ok priors) :
    (∀ save out evs, scale_lhs fs stats cfg fname save = .ok (out, evs) →
      ∀ i (hi : i < m.length),
        ∃ c, out.get? i = some c ∧
          scaleRow cfg.cosmo priors (m.get ⟨i, hi⟩) = .ok c) ∧
    (∀ cos pk ev, pk_linear fs stats cfg engine fname z = (.ok (cos, pk), ev) →
      ∀ i (hi : i < cos.length),
        ∃ p, pk.get? i = some p ∧ engine (cos.get ⟨i, hi⟩) z = .ok p) := by
  constructor
  · intro save out evs h i hi
    obtain ⟨m', priors', hfs', hbp', hme, -⟩ := scale_lhs_ok_elim h
    rw [hm] at hfs'
    injection hfs' with hmm
    subst hmm
    rw [hp] at hbp'
    injection hbp' with hpp
    subst hpp
    exact mapE_ok_get hme i hi
  · intro cos pk ev h i hi
    obtain ⟨ev1, ev2, hs, hre, -⟩ := pk_linear_ok_elim h
    obtain ⟨-, -, hget⟩ := runEngine_ok hre
    exact hget i hi

/-- Claim C3 witness: on the demo input, the first output row is the scaling of
the first input row, and the first spectrum is the engine's output for it. -/
theorem rowwise_independent_witness :
    (∃ c, ([[("param1", (1 : ℚ)/2), ("param2", (1 : ℚ)/2)]] : List Cosmo).get? 0 = some c ∧
      scaleRow cfgDemo.cosmo [("param1", stdUnif), ("param2", stdUnif)]
        (([[(1 : ℚ)/2, (1 : ℚ)/2]] : List (List ℚ)).get ⟨0, Nat.one_pos⟩) = .ok c) ∧
    (∃ p, ([[((1 : ℚ), (1 : ℚ))]] : List Pk).get? 0 = some p ∧
      engineDemo (([[("param1", (1 : ℚ)/2), ("param2", (1 : ℚ)/2)]] : List Cosmo).get
        ⟨0, Nat.one_pos⟩) 0 = .ok p) :=
  ⟨(@rowwise_independent fsDemo statsDemo cfgDemo engineDemo "lhs" 0
      [[(1 : ℚ)/2, (1 : ℚ)/2]] [("param1", stdUnif), ("param2", stdUnif)]
      rfl rfl).1 false
      [[("param1", (1 : ℚ)/2), ("param2", (1 : ℚ)/2)]] [] rfl 0 Nat.one_pos,
   (@rowwise_independent fsDemo statsDemo cfgDemo engineDemo "lhs" 0
      [[(1 : ℚ)/2, (1 : ℚ)/2]] [("param1", stdUnif), ("param2", stdUnif)]
      rfl rfl).2
      [[("param1", (1 : ℚ)/2), ("param2", (1 : ℚ)/2)]] [[((1 : ℚ), (1 : ℚ))]] _ rfl
      0 Nat.one_pos⟩

/-- Claim C4: `generate_prior` fails (at prior-construction time) exactly when
the distribution family name is not a recognized attribute of the stats module
or the supplied numeric parameters mismatch the family's requirements; when the
lookup and the construction succeed, it returns exactly the constructed
distribution object (the embedding is pure, so there is no other effect). -/
theorem generate_prior_error_iff (stats : SciPy) (dictionary : PriorSpec) :
    ((∃ e, generate_prior stats dictionary = .error e) ↔
      stats dictionary.distribution = none ∨
      ∃ ctor, stats dictionary.distribution = some ctor ∧
        ctor dictionary.specs = none) ∧
    (∀ ctor dist, stats dictionary.distribution = some ctor →
      ctor dictionary.specs = some dist →
      generate_prior stats dictionary = .ok dist) := by
  constructor
  · constructor
    · rintro ⟨e, he⟩
      unfold generate_prior at he
      split at he
      next hs => exact Or.inl hs
      next ctor hs =>
        split at he
        next hc => exact Or.inr ⟨ctor, hs, hc⟩
        next dist hc => exact absurd he (by simp)
    · rintro (hs | ⟨ctor, hs, hc⟩)
      · exact ⟨.attributeError, by simp [generate_prior, hs]⟩
      · exact ⟨.typeError, by simp [generate_prior, hs, hc]⟩
  · intro ctor dist hs hc
    simp [generate_prior, hs, hc]

/-- Claim C4 witness: an unrecognized family name fails, malformed parameters
for a recognized family fail, and a well-formed specification succeeds. -/
theorem generate_prior_error_iff_witness :
    (∃ e, generate_prior statsDemo ⟨"gauss", []⟩ = .error e) ∧
    (∃ e, generate_prior statsDemo ⟨"uniform", [0]⟩ = .error e) ∧
    generate_prior statsDemo ⟨"uniform", [0, 1]⟩ = .ok stdUnif :=
  ⟨(generate_prior_error_iff statsDemo ⟨"gauss", []⟩).1.mpr (Or.inl rfl),
   (generate_prior_error_iff statsDemo ⟨"uniform", [0]⟩).1.mpr
     (Or.inr ⟨uniformCtor, rfl, rfl⟩),
   (generate_prior_error_iff statsDemo ⟨"uniform", [0, 1]⟩).2 uniformCtor stdUnif rfl rfl⟩

lemma filterMap_calls (z : ℚ) :
    ∀ l : List Cosmo,
      List.filterMap engineCallOf (l.map (fun c => Event.engineCall c z)) =
        l.map (fun c => (c, z)) := by
  intro l
  induction l with
  | nil => rfl
  | cons c rest ih => simp [List.filterMap_cons, engineCallOf, ih]

/-- Claim C5: if the external engine fails on row `i` of a successfully scaled
batch (succeeding on all earlier rows), `pk_linear` propagates the error, the
engine is invoked exactly on rows `0..i` (none after `i`), and no
power-spectrum persistence event is emitted (not even for the rows before
`i`). -/
theorem engine_failure_aborts_batch
    {fs : FS} {stats : SciPy} {cfg : Config} {engine : Engine} {fname : String}
    {z : ℚ} {cos : List Cosmo} {ev1 : List Event} {i : Nat} {e : Err}
    (hs : scale_lhs fs stats cfg fname true = .ok (cos, ev1))
    (hi : i < cos.length)
    (hfail : engine (cos.get ⟨i, hi⟩) z = .error e)
    (hok : ∀ j (hj : j < i), ∃ p, engine (cos.get ⟨j, Nat.lt_trans hj hi⟩) z = .ok p) :
    (pk_linear fs stats cfg engine fname z).1 = .error e ∧
    (∀ ev ∈ (pk_linear fs stats cfg engine fname z).2, isPkSave ev = false) ∧
    (pk_linear fs stats cfg engine fname z).2.filterMap engineCallOf =
      (cos.take (i + 1)).map (fun c => (c, z)) := by
  have hre := runEngine_err hi hok hfail
  have hev1 : ev1 = [Event.saveCsv "data" "cosmologies" cos,
                     Event.saveList "data" "cosmologies" cos] := by
    simpa using scale_lhs_ok_events hs
  have key : pk_linear fs stats cfg engine fname z =
      (.error e, ev1 ++ (cos.take (i + 1)).map (fun c => Event.engineCall c z)) := by
    simp [pk_linear, hs, hre]
  refine ⟨by rw [key], ?_, ?_⟩
  · intro ev hev
    rw [key] at hev
    subst hev1
    rcases List.mem_append.mp hev with h1 | h2
    · simp only [List.mem_cons, List.not_mem_nil, or_false] at h1
      rcases h1 with rfl | rfl <;> rfl
    · obtain ⟨c, -, rfl⟩ := List.mem_map.mp h2
      rfl
  · rw [key]
    subst hev1
    rw [List.filterMap_append, filterMap_calls]
    simp [List.filterMap_cons, engineCallOf]

/-- Claim C5 witness: with an engine failing on the single demo row, the batch
aborts with the engine error, the engine was called exactly once, and no
spectrum was persisted. -/
theorem engine_failure_aborts_batch_witness :
    (pk_linear fsDemo statsDemo cfgDemo (fun _ _ => .error .engineError)
        "lhs" 0).1 = .error .engineError ∧
    (∀ ev ∈ (pk_linear fsDemo statsDemo cfgDemo (fun _ _ => .error .engineError)
        "lhs" 0).2, isPkSave ev = false) ∧
    (pk_linear fsDemo statsDemo cfgDemo (fun _ _ => .error .engineError)
        "lhs" 0).2.filterMap engineCallOf =
      (([[("param1", (1 : ℚ)/2), ("param2", (1 : ℚ)/2)]] : List Cosmo).take 1).map
        (fun c => (c, (0 : ℚ))) :=
  @engine_failure_aborts_batch fsDemo statsDemo cfgDemo
    (fun _ _ => .error .engineError) "lhs" 0
    [[("param1", (1 : ℚ)/2), ("param2", (1 : ℚ)/2)]]
    [Event.saveCsv "data" "cosmologies"
       [[("param1", (1 : ℚ)/2), ("param2", (1 : ℚ)/2)]],
     Event.saveList "data" "cosmologies"
       [[("param1", (1 : ℚ)/2), ("param2", (1 : ℚ)/2)]]]
    0 Err.engineError rfl Nat.one_pos rfl
    (fun j hj => absurd hj (Nat.not_lt_zero j))

/-- Claim C6: `scale_lhs` is deterministic: two runs on the same file system,
stats module, configuration, file name and flag return the same value (the
embedding is a pure function of these inputs; no randomness enters at the
scaling stage). -/
theorem scale_lhs_deterministic
    {fs : FS} {stats : SciPy} {cfg : Config} {fname : String} {save : Bool}
    {r1 r2 : Except Err (List Cosmo × List Event)}
    (h1 : scale_lhs fs stats cfg fname save = r1)
    (h2 : scale_lhs fs stats cfg fname save = r2) : r1 = r2 := by
  rw [← h1, ← h2]

/-- Claim C6 witness: two evaluations on the demo input agree. -/
theorem scale_lhs_deterministic_witness :
    (Except.ok ([[("param1", (1 : ℚ)/2), ("param2", (1 : ℚ)/2)]], ([] : List Event)) :
      Except Err (List Cosmo × List Event)) =
      Except.ok ([[("param1", (1 : ℚ)/2), ("param2", (1 : ℚ)/2)]], []) :=
  @scale_lhs_deterministic fsDemo statsDemo cfgDemo "lhs" false _ _ rfl rfl

/-- Claim C7: the persistence of `scale_lhs` is controlled by the `save` flag:
with `save = false` no write event is emitted, with `save = true` exactly the
tabular and serialized-list writes of the scaled cosmologies under the fixed
location `data/cosmologies` are emitted, and the returned list is the same in
both cases. -/
theorem scale_lhs_save_flag
    {fs : FS} {stats : SciPy} {cfg : Config} {fname : String}
    {out0 out1 : List Cosmo} {evs0 evs1 : List Event}
    (h0 : scale_lhs fs stats cfg fname false = .ok (out0, evs0))
    (h1 : scale_lhs fs stats cfg fname true = .ok (out1, evs1)) :
    evs0 = [] ∧
    evs1 = [Event.saveCsv "data" "cosmologies" out1,
            Event.saveList "data" "cosmologies" out1] ∧
    out0 = out1 := by
  refine ⟨by simpa using scale_lhs_ok_events h0,
          by simpa using scale_lhs_ok_events h1, ?_⟩
  obtain ⟨m0, p0, hf0, hb0, hm0, -⟩ := scale_lhs_ok_elim h0
  obtain ⟨m1, p1, hf1, hb1, hm1, -⟩ := scale_lhs_ok_elim h1
  rw [hf0] at hf1
  injection hf1 with hmm
  subst hmm
  rw [hb0] at hb1
  injection hb1 with hpp
  subst hpp
  rw [hm0] at hm1
  exact Except.ok.inj hm1

/-- Claim C7 witness: on the demo input, the flag-off run emits nothing, the
flag-on run emits exactly the two writes, and the returned lists coincide. -/
theorem scale_lhs_save_flag_witness :
    ([] : List Event) = [] ∧
    ([Event.saveCsv "data" "cosmologies"
        [[("param1", (1 : ℚ)/2), ("param2", (1 : ℚ)/2)]],
      Event.saveList "data" "cosmologies"
        [[("param1", (1 : ℚ)/2), ("param2", (1 : ℚ)/2)]]] : List Event) =
      [Event.saveCsv "data" "cosmologies"
        [[("param1", (1 : ℚ)/2), ("param2", (1 : ℚ)/2)]],
       Event.saveList "data" "cosmologies"
        [[("param1", (1 : ℚ)/2), ("param2", (1 : ℚ)/2)]]] ∧
    ([[("param1", (1 : ℚ)/2), ("param2", (1 : ℚ)/2)]] : List Cosmo) =
      [[("param1", (1 : ℚ)/2), ("param2", (1 : ℚ)/2)]] :=
  @scale_lhs_save_flag fsDemo statsDemo cfgDemo "lhs" _ _ _ _ rfl rfl

/-- Claim C8: on an input matrix with zero rows (and well-formed priors),
`scale_lhs` returns the empty cosmology list, `pk_linear` returns empty
cosmology and spectrum lists, and the external engine is never invoked. -/
theorem empty_matrix_empty_outputs
    {fs : FS} {stats : SciPy} {cfg : Config} {engine : Engine} {fname : String}
    {z : ℚ} {save : Bool} {ps : List (String × Dist)}
    (hm : fs (resolvePath fname) = some [])
    (hp : buildPriors stats cfg.priors cfg.cosmo = .ok ps) :
    scale_lhs fs stats cfg fname save =
      .ok ([], if save then [Event.saveCsv "data" "cosmologies" [],
                             Event.saveList "data" "cosmologies" []] else []) ∧
    pk_linear fs stats cfg engine fname z =
      (.ok ([], []), [Event.saveCsv "data" "cosmologies" [],
                      Event.saveList "data" "cosmologies" [],
                      Event.savePkCsv "data" "pk_linear" [],
                      Event.savePkList "data" "pk_linear" []]) ∧
    ∀ c zz, Event.engineCall c zz ∉ (pk_linear fs stats cfg engine fname z).2 := by
  have h1 : ∀ sv : Bool, scale_lhs fs stats cfg fname sv =
      .ok ([], if sv then [Event.saveCsv "data" "cosmologies" [],
                           Event.saveList "data" "cosmologies" []] else []) := by
    intro sv
    simp [scale_lhs, hm, hp, mapE]
  have h2 : pk_linear fs stats cfg engine fname z =
      (.ok ([], []), [Event.saveCsv "data" "cosmologies" [],
                      Event.saveList "data" "cosmologies" [],
                      Event.savePkCsv "data" "pk_linear" [],
                      Event.savePkList "data" "pk_linear" []]) := by
    simp [pk_linear, h1 true, runEngine]
  refine ⟨h1 save, h2, ?_⟩
  rw [h2]
  intro c zz
  simp

/-- Claim C8 witness: with a zero-row demo file, the scaled list is empty and
no engine call appears among the emitted events. -/
theorem empty_matrix_empty_outputs_witness :
    scale_lhs fsEmptyDemo statsDemo cfgDemo "lhs" false = .ok ([], []) ∧
    Event.engineCall [] 0 ∉
      (pk_linear fsEmptyDemo statsDemo cfgDemo engineDemo "lhs" 0).2 :=
  ⟨(@empty_matrix_empty_outputs fsEmptyDemo statsDemo cfgDemo engineDemo "lhs" 0
      false [("param1", stdUnif), ("param2", stdUnif)] rfl rfl).1,
   (@empty_matrix_empty_outputs fsEmptyDemo statsDemo cfgDemo engineDemo "lhs" 0
      false [("param1", stdUnif), ("param2", stdUnif)] rfl rfl).2.2 [] 0⟩

/-- Claim C9: for every prior successfully constructed by `generate_prior`
whose `ppf` is the quantile function (inverse CDF) of a cumulative distribution
function, the `ppf` is monotone non-decreasing on unit values: `u1 < u2`
implies `ppf u1 ≤ ppf u2`. -/
theorem ppf_monotone
    {stats : SciPy} {dictionary : PriorSpec} {dist : Dist} {cdf : ℚ → ℚ}
    (_hgen : generate_prior stats dictionary = .ok dist)
    (hq : IsQuantileOf cdf dist.ppf)
    {u1 u2 : ℚ} (_h0 : 0 ≤ u1) (_h1 : u2 ≤ 1) (hlt : u1 < u2) :
    dist.ppf u1 ≤ dist.ppf u2 :=
  (hq u1 (dist.ppf u2)).mpr (le_trans (le_of_lt hlt) ((hq u2 (dist.ppf u2)).mp le_rfl))

/-- Claim C9 witness: the standard uniform prior constructed from the demo
stats module has a monotone quantile function at `1/4 < 3/4`. -/
theorem ppf_monotone_witness : stdUnif.ppf (1/4) ≤ stdUnif.ppf (3/4) :=
  @ppf_monotone statsDemo ⟨"uniform", [0, 1]⟩ stdUnif (fun x => x)
    rfl (fun u x => Iff.rfl) (1/4) (3/4)
    (by norm_num) (by norm_num) (by norm_num)

/-- Claim C10: the input path is resolved by a substring test, not a suffix
test: whenever `".csv"` occurs anywhere in `fname` the file read is
`data/<fname>` unchanged, and otherwise it is `data/<fname>.csv`; in
particular a name merely containing `".csv"` never gets an extension
appended. -/
theorem path_substring_resolution (fname : String) :
    (occursIn ".csv".toList fname.toList = true →
      resolvePath fname = "data/" ++ fname) ∧
    (occursIn ".csv".toList fname.toList = false →
      resolvePath fname = "data/" ++ fname ++ ".csv") := by
  constructor
  · intro h
    rw [resolvePath, if_pos h]
  · intro h
    have hn : ¬ (occursIn ".csv".toList fname.toList = true) := fun hc => by
      rw [hc] at h
      exact Bool.noConfusion h
    rw [resolvePath, if_neg hn]

/-- Claim C10 witness: `lhs.csv.bak` contains `.csv` (not as a suffix) and is
read unchanged, while `lhs_500` gets the extension appended. -/
theorem path_substring_resolution_witness :
    resolvePath "lhs.csv.bak" = "data/" ++ "lhs.csv.bak" ∧
    resolvePath "lhs_500" = "data/" ++ "lhs_500" ++ ".csv" :=
  ⟨(path_substring_resolution "lhs.csv.bak").1 (by decide),
   (path_substring_resolution "lhs_500").2 (by decide)⟩

end OXEMU
